import Mathlib

/-
Verification of the PromptScript documentation tooling.

The repository consists of `docs_extensions/promptscript_lexer.py` (a Pygments
`RegexLexer` rule table for the PromptScript language) and
`docs_extensions/mkdocs_hooks.py` (URL substitution hooks for MkDocs).

The rule table (the `tokens` dictionary, the `ENV_VAR_PATTERN` regex and the
keyword alternations) is translated rule by rule from the source.  The drive
loop that interprets the table lives in the host highlighting library, which is
not part of this repository's sources; it is modelled from the spec
(first-match-wins in declaration order, one-character Error fallback,
unterminated-state signalling at end of input).  Regex character classes are
modelled at ASCII granularity, matching the ASCII inputs of the grammar.
-/

set_option maxRecDepth 10000

namespace PromptScript

/-- The lexer states: the keys of `PromptScriptLexer.tokens`. -/
inductive LexState : Type
  | root
  | block
  | list
  | string_double
  | string_single
  | docstring
deriving DecidableEq, Repr

/-- The Pygments token types appearing in the rule table, plus the engine's
fallback `Error` type. -/
inductive TokKind : Type
  | CommentSingle
  | WhitespaceTok
  | PunctTok
  | KeywordDecl
  | KeywordNS
  | StringTok
  | StringDoc
  | StringDouble
  | StringSingle
  | NameAttribute
  | NameLabel
  | NameVariable
  | NumberTok
  | KeywordConstant
  | TextTok
  | ErrorTok
deriving DecidableEq, Repr

/-- A rule's state-transition action: stay, push a named state, `#push`
(push the current state again), or `#pop`. -/
inductive Transition : Type
  | stay
  | push (s : LexState)
  | pushSame
  | pop
deriving DecidableEq, Repr

/-- The result of one rule matching at the current cursor: the emitted
(kind, text) pairs, the consumed span, the remaining input and the
transition action. -/
structure MatchRes : Type where
  toks : List (TokKind × List Char)
  consumed : List Char
  rest : List Char
  trans : Transition
deriving DecidableEq, Repr

/-- Concatenation of the text spans of emitted (kind, text) pairs. -/
def toksText : List (TokKind × List Char) → List Char
  | [] => []
  | (_, t) :: ts => t ++ toksText ts

/-- A match result holding a single token covering the whole consumed span. -/
def mkOne (k : TokKind) (txt : List Char) (r : List Char) (t : Transition) : MatchRes :=
  ⟨[(k, txt)], txt, r, t⟩

/-- Python `\s` at ASCII granularity (space, tab, newline, vertical tab,
form feed, carriage return). -/
def isSpaceCh (c : Char) : Bool :=
  c == ' ' || c == '\t' || c == '\n' || c == '\x0b' || c == '\x0c' || c == '\r'

/-- Python `\w` at ASCII granularity: letters, digits, underscore. -/
def isWordCh (c : Char) : Bool :=
  c.isAlpha || c.isDigit || c == '_'

/-- Characters other than a newline, for `.` (no DOTALL). -/
def notNl (c : Char) : Bool := c != '\n'

/-- Anchored literal match: if `pat` is an initial segment of the input,
return the input after it. -/
def litMatchRest : List Char → List Char → Option (List Char)
  | [], cs => some cs
  | _ :: _, [] => none
  | p :: ps, c :: cs => if c == p then litMatchRest ps cs else none

/-- First alternative of a regex alternation that matches at the cursor.
All alternation lists in the lexer are mutually prefix-free, so at most one
alternative can match and this equals the backtracking regex semantics. -/
def kwAlt : List (List Char) → List Char → Option (List Char × List Char)
  | [], _ => none
  | a :: as, cs =>
    match litMatchRest a cs with
    | some r => some (a, r)
    | none => kwAlt as cs

/-- Greedy run of characters satisfying `p` (regex `X*` for a one-character
class `X`): the run and the rest. -/
def span0 (p : Char → Bool) (cs : List Char) : List Char × List Char :=
  (cs.takeWhile p, cs.dropWhile p)

/-- Greedy nonempty run of characters satisfying `p` (regex `X+`). -/
def span1 (p : Char → Bool) (cs : List Char) : Option (List Char × List Char) :=
  match cs.takeWhile p with
  | [] => none
  | c :: run => some (c :: run, cs.dropWhile p)

/-- Word boundary `\b` after a match: the next character, if any, is not a
word character. -/
def noWordAfter (r : List Char) : Bool :=
  match r with
  | [] => true
  | c :: _ => !(isWordCh c)

/-- Rule `#.*$` (with MULTILINE `$`): a comment running to the end of the
line. -/
def commentMatch (cs : List Char) : Option MatchRes :=
  match cs with
  | '#' :: rest =>
    some (mkOne .CommentSingle ('#' :: rest.takeWhile notNl) (rest.dropWhile notNl) .stay)
  | _ => none

/-- A rule matching a single one-character-class run, e.g. `\s+` or
`[^"$]+`. -/
def classMatch (p : Char → Bool) (k : TokKind) (t : Transition) (cs : List Char) :
    Option MatchRes :=
  match span1 p cs with
  | some (run, r) => some (mkOne k run r t)
  | none => none

/-- A rule matching a fixed literal, e.g. `"""` or a single punctuation
character. -/
def litRule (pat : List Char) (k : TokKind) (t : Transition) (cs : List Char) :
    Option MatchRes :=
  match litMatchRest pat cs with
  | some r => some (mkOne k pat r t)
  | none => none

/-- A rule matching one fixed character. -/
def charRule (c : Char) (k : TokKind) (t : Transition) : List Char → Option MatchRes :=
  litRule [c] k t

/-- The declaration keywords of the root rule
`(@)(meta|identity|standards|shortcuts|agents|skills|local|extend|restrictions)\b`. -/
def rootKeywords : List (List Char) :=
  [("meta").data, ("identity").data, ("standards").data, ("shortcuts").data,
   ("agents").data, ("skills").data, ("local").data, ("extend").data,
   ("restrictions").data]

/-- Root rule `(@)(meta|...)\b` with `bygroups(Punctuation, Keyword.Declaration)`. -/
def atKeywordMatch (cs : List Char) : Option MatchRes :=
  match cs with
  | '@' :: rest =>
    match kwAlt rootKeywords rest with
    | some (kw, r) =>
      if noWordAfter r then
        some ⟨[(.PunctTok, ['@']), (.KeywordDecl, kw)], '@' :: kw, r, .stay⟩
      else none
    | none => none
  | _ => none

/-- Character class `[\w\-./]` of the dependency-path regex. -/
def pathCh (c : Char) : Bool := isWordCh c || c == '-' || c == '.' || c == '/'

/-- Character class `[\w\-.]` of the optional version suffix. -/
def verCh (c : Char) : Bool := isWordCh c || c == '-' || c == '.'

/-- The path form `@[\w\-./]+(?:@[\w\-.]+)?` of the inherit/use rules. -/
def pathTail (cs : List Char) : Option (List Char × List Char) :=
  match cs with
  | '@' :: rest =>
    match span1 pathCh rest with
    | some (run, r) =>
      match r with
      | '@' :: r2 =>
        match span1 verCh r2 with
        | some (run2, r3) => some (('@' :: run) ++ ('@' :: run2), r3)
        | none => some ('@' :: run, r)
      | _ => some ('@' :: run, r)
    | none => none
  | _ => none

/-- The alternative path form `\.[\w\-./]+` of the use rule. -/
def dotPath (cs : List Char) : Option (List Char × List Char) :=
  match cs with
  | '.' :: rest =>
    match span1 pathCh rest with
    | some (run, r) => some ('.' :: run, r)
    | none => none
  | _ => none

/-- The use rule's path alternation `@...|.…`, first alternative first. -/
def usePathMatch (cs : List Char) : Option (List Char × List Char) :=
  match pathTail cs with
  | some x => some x
  | none => dotPath cs

def atInheritLit : List Char := ("@inherit").data

def atUseLit : List Char := ("@use").data

/-- Root rule `(@inherit)(\s+)(@[\w\-./]+(?:@[\w\-.]+)?)` with
`bygroups(Keyword.Namespace, Whitespace, String)`. -/
def inheritMatch (cs : List Char) : Option MatchRes :=
  match litMatchRest atInheritLit cs with
  | some r1 =>
    match span1 isSpaceCh r1 with
    | some (ws, r2) =>
      match pathTail r2 with
      | some (p, r3) =>
        some ⟨[(.KeywordNS, atInheritLit), (.WhitespaceTok, ws), (.StringTok, p)],
          atInheritLit ++ ws ++ p, r3, .stay⟩
      | none => none
    | none => none
  | none => none

/-- Root rule `(@use)(\s+)(@[\w\-./]+(?:@[\w\-.]+)?|\.[\w\-./]+)` with
`bygroups(Keyword.Namespace, Whitespace, String)`. -/
def useMatch (cs : List Char) : Option MatchRes :=
  match litMatchRest atUseLit cs with
  | some r1 =>
    match span1 isSpaceCh r1 with
    | some (ws, r2) =>
      match usePathMatch r2 with
      | some (p, r3) =>
        some ⟨[(.KeywordNS, atUseLit), (.WhitespaceTok, ws), (.StringTok, p)],
          atUseLit ++ ws ++ p, r3, .stay⟩
      | none => none
    | none => none
  | none => none

/-- Block rule `-\s+` (list item marker), one Punctuation token. -/
def dashMatch (cs : List Char) : Option MatchRes :=
  match cs with
  | '-' :: rest =>
    match span1 isSpaceCh rest with
    | some (ws, r) => some (mkOne .PunctTok ('-' :: ws) r .stay)
    | none => none
  | _ => none

/-- The known property names of the block rule
`(id|name|syntax|...)\s*(:)`. -/
def blockAttrs : List (List Char) :=
  [("id").data, ("name").data, ("syntax").data, ("description").data,
   ("version").data, ("author").data, ("license").data, ("homepage").data,
   ("repository").data, ("keywords").data, ("extends").data, ("type").data,
   ("content").data, ("convention").data, ("trigger").data, ("enabled").data,
   ("path").data, ("prompt").data, ("model").data, ("tools").data]

/-- Block rule `(id|name|...)\s*(:)` with
`bygroups(Name.Attribute, Punctuation)`.  The `\s*` span between the two
groups is consumed but belongs to no group, so it is emitted by no token. -/
def attrKeyMatch (cs : List Char) : Option MatchRes :=
  match kwAlt blockAttrs cs with
  | some (kw, r1) =>
    match (span0 isSpaceCh r1).2 with
    | ':' :: r3 =>
      some ⟨[(.NameAttribute, kw), (.PunctTok, [':'])],
        kw ++ (span0 isSpaceCh r1).1 ++ [':'], r3, .stay⟩
    | _ => none
  | none => none

/-- Character class `[\w\-]` of the generic label rule. -/
def labelCh (c : Char) : Bool := isWordCh c || c == '-'

/-- Block rule `([\w\-]+)\s*(:)` with `bygroups(Name.Label, Punctuation)`.
As in `attrKeyMatch`, the `\s*` span is emitted by no token. -/
def labelKeyMatch (cs : List Char) : Option MatchRes :=
  match span1 labelCh cs with
  | some (run, r1) =>
    match (span0 isSpaceCh r1).2 with
    | ':' :: r3 =>
      some ⟨[(.NameLabel, run), (.PunctTok, [':'])],
        run ++ (span0 isSpaceCh r1).1 ++ [':'], r3, .stay⟩
    | _ => none
  | none => none

/-- Character class `[A-Z0-9_]` of `ENV_VAR_PATTERN`. -/
def upperNameCh (c : Char) : Bool := c.isUpper || c.isDigit || c == '_'

/-- Character class `[^}]` of the `:-default` part of `ENV_VAR_PATTERN`. -/
def notRBrace (c : Char) : Bool := c != '\x7d'

/-- Rule `ENV_VAR_PATTERN = \$\{[A-Z_][A-Z0-9_]*(?::-[^}]*)?\}`, one
Name.Variable token. -/
def envVarMatch (cs : List Char) : Option MatchRes :=
  match cs with
  | '$' :: '\x7b' :: c :: rest =>
    if c.isUpper || c == '_' then
      match (span0 upperNameCh rest).2 with
      | '\x7d' :: r2 =>
        some (mkOne .NameVariable
          ('$' :: '\x7b' :: c :: ((span0 upperNameCh rest).1 ++ ['\x7d'])) r2 .stay)
      | ':' :: '-' :: r2 =>
        match (span0 notRBrace r2).2 with
        | '\x7d' :: r4 =>
          some (mkOne .NameVariable
            ('$' :: '\x7b' :: c :: ((span0 upperNameCh rest).1 ++
              ':' :: '-' :: ((span0 notRBrace r2).1 ++ ['\x7d']))) r4 .stay)
        | _ => none
      | _ => none
    else none
  | _ => none

/-- Python `\d` (ASCII digits). -/
def isDigitCh (c : Char) : Bool := c.isDigit

/-- Block rule `\d+\.\d+\.\d+` (the semver rule), one Number token. -/
def semverMatch (cs : List Char) : Option MatchRes :=
  match span1 isDigitCh cs with
  | some (d1, r1) =>
    match r1 with
    | '.' :: r2 =>
      match span1 isDigitCh r2 with
      | some (d2, r3) =>
        match r3 with
        | '.' :: r4 =>
          match span1 isDigitCh r4 with
          | some (d3, r5) =>
            some (mkOne .NumberTok (d1 ++ '.' :: (d2 ++ '.' :: d3)) r5 .stay)
          | none => none
        | _ => none
      | none => none
    | _ => none
  | none => none

/-- Block rule `\d+` (the integer rule), one Number token. -/
def intMatch (cs : List Char) : Option MatchRes :=
  match span1 isDigitCh cs with
  | some (d, r) => some (mkOne .NumberTok d r .stay)
  | none => none

def boolLits : List (List Char) := [("true").data, ("false").data]

/-- The leading `\b` of the boolean rule: since both alternatives start with
a word character, the boundary holds iff the character before the cursor is
absent or not a word character. -/
def boolOK (pc : Option Char) : Bool :=
  match pc with
  | none => true
  | some c => !(isWordCh c)

/-- Block rule `\b(true|false)\b`, one Keyword.Constant token. -/
def boolMatch (pc : Option Char) (cs : List Char) : Option MatchRes :=
  if boolOK pc then
    match kwAlt boolLits cs with
    | some (w, r) =>
      if noWordAfter r then some (mkOne .KeywordConstant w r .stay) else none
    | none => none
  else none

/-- Character class `[^\s\{\}\[\]\"'#:]` of the block catch-all text rule. -/
def blockTextCh (c : Char) : Bool :=
  !(isSpaceCh c || c == '\x7b' || c == '\x7d' || c == '[' || c == ']' ||
    c == '"' || c == '\'' || c == '#' || c == ':')

/-- Character class `[^\]\s\"',#]` of the list catch-all text rule. -/
def listTextCh (c : Char) : Bool :=
  !(c == ']' || isSpaceCh c || c == '"' || c == '\'' || c == ',' || c == '#')

/-- Character class `[^"$]` of the double-quoted-string/docstring content
rule. -/
def dqContentCh (c : Char) : Bool := !(c == '"' || c == '$')

/-- Character class `[^'$]` of the single-quoted-string content rule. -/
def sqContentCh (c : Char) : Bool := !(c == '\'' || c == '$')

/-- Rule `\$(?!\{)`: a lone dollar sign not starting an interpolation. -/
def dollarNoBrace (k : TokKind) (cs : List Char) : Option MatchRes :=
  match cs with
  | '$' :: '\x7b' :: _ => none
  | '$' :: rest => some (mkOne k ['$'] rest .stay)
  | _ => none

/-- Docstring rule `"(?!"")`: a quote that does not start the closing
`"""`. -/
def quoteNotTriple (cs : List Char) : Option MatchRes :=
  match cs with
  | '"' :: '"' :: '"' :: _ => none
  | '"' :: rest => some (mkOne .StringDoc ['"'] rest .stay)
  | _ => none

def tripleQ : List Char := ['"', '"', '"']

/-- A rule: previous character (for `\b`) and remaining input to an optional
match result. -/
def Rule : Type := Option Char → List Char → Option MatchRes

/-- The rule table, state by state and rule by rule in declaration order,
translated from `PromptScriptLexer.tokens`. -/
def tokens : LexState → List Rule
  | .root =>
    [fun _ cs => commentMatch cs,
     fun _ cs => classMatch isSpaceCh .WhitespaceTok .stay cs,
     fun _ cs => atKeywordMatch cs,
     fun _ cs => inheritMatch cs,
     fun _ cs => useMatch cs,
     fun _ cs => charRule '\x7b' .PunctTok (.push .block) cs,
     fun _ cs => charRule '[' .PunctTok (.push .list) cs]
  | .block =>
    [fun _ cs => commentMatch cs,
     fun _ cs => classMatch isSpaceCh .WhitespaceTok .stay cs,
     fun _ cs => litRule tripleQ .StringDoc (.push .docstring) cs,
     fun _ cs => dashMatch cs,
     fun _ cs => attrKeyMatch cs,
     fun _ cs => labelKeyMatch cs,
     fun _ cs => charRule '\x7b' .PunctTok .pushSame cs,
     fun _ cs => charRule '\x7d' .PunctTok .pop cs,
     fun _ cs => charRule '[' .PunctTok (.push .list) cs,
     fun _ cs => charRule '"' .StringDouble (.push .string_double) cs,
     fun _ cs => charRule '\'' .StringSingle (.push .string_single) cs,
     fun _ cs => envVarMatch cs,
     fun _ cs => semverMatch cs,
     fun _ cs => intMatch cs,
     fun pc cs => boolMatch pc cs,
     fun _ cs => classMatch blockTextCh .TextTok .stay cs]
  | .list =>
    [fun _ cs => commentMatch cs,
     fun _ cs => classMatch isSpaceCh .WhitespaceTok .stay cs,
     fun _ cs => charRule ',' .PunctTok .stay cs,
     fun _ cs => charRule '"' .StringDouble (.push .string_double) cs,
     fun _ cs => charRule '\'' .StringSingle (.push .string_single) cs,
     fun _ cs => charRule ']' .PunctTok .pop cs,
     fun _ cs => classMatch listTextCh .TextTok .stay cs]
  | .string_double =>
    [fun _ cs => envVarMatch cs,
     fun _ cs => charRule '"' .StringDouble .pop cs,
     fun _ cs => classMatch dqContentCh .StringDouble .stay cs,
     fun _ cs => dollarNoBrace .StringDouble cs]
  | .string_single =>
    [fun _ cs => envVarMatch cs,
     fun _ cs => charRule '\'' .StringSingle .pop cs,
     fun _ cs => classMatch sqContentCh .StringSingle .stay cs,
     fun _ cs => dollarNoBrace .StringSingle cs]
  | .docstring =>
    [fun _ cs => envVarMatch cs,
     fun _ cs => litRule tripleQ .StringDoc .pop cs,
     fun _ cs => classMatch dqContentCh .StringDoc .stay cs,
     fun _ cs => quoteNotTriple cs,
     fun _ cs => dollarNoBrace .StringDoc cs]

/-- Modelled from the spec: the engine evaluates the active state's rules in
declaration order and the first rule whose pattern matches at the cursor
wins. -/
def firstMatch : List Rule → Option Char → List Char → Option MatchRes
  | [], _, _ => none
  | r :: rs, pc, cs =>
    match r pc cs with
    | some m => some m
    | none => firstMatch rs pc cs

/-- Modelled from the spec: one engine step on a nonempty input.  If no rule
of the active state matches, the engine consumes exactly one character as a
fallback Error token and stays in the same state. -/
def stepFull (pc : Option Char) (st : LexState) (c : Char) (cs : List Char) : MatchRes :=
  match firstMatch (tokens st) pc (c :: cs) with
  | some m => m
  | none => ⟨[(.ErrorTok, [c])], [c], cs, .stay⟩

/-- A state-stack frame: the state and the offset at which it was entered. -/
structure Frame : Type where
  state : LexState
  start : Nat
deriving DecidableEq, Repr

/-- An emitted token: classification kind and text span. -/
structure Token : Type where
  kind : TokKind
  text : List Char
deriving DecidableEq, Repr

/-- Modelled from the spec: apply a rule's transition action to the state
stack (head = top).  A push records the offset of the match that pushed. -/
def applyTrans (pos : Nat) (stk : List Frame) : Transition → List Frame
  | .stay => stk
  | .push s => ⟨s, pos⟩ :: stk
  | .pushSame =>
    match stk with
    | f :: _ => ⟨f.state, pos⟩ :: stk
    | [] => stk
  | .pop => stk.tail

/-- The active state: the top of the stack. -/
def headState (stk : List Frame) : LexState :=
  match stk with
  | f :: _ => f.state
  | [] => .root

/-- Output of a run: tokens, final cursor position, final stack, and the
stack before each step (ending with the final stack). -/
structure RunOut : Type where
  toks : List Token
  endPos : Nat
  stk : List Frame
  trace : List (List Frame)
deriving DecidableEq, Repr

/-- The previous character after consuming a span. -/
def lastOr (pc : Option Char) (l : List Char) : Option Char :=
  match l.getLast? with
  | some c => some c
  | none => pc

/-- Modelled from the spec: the engine drive loop.  Fuel-indexed structural
recursion; every step consumes at least one character, so fuel equal to the
input length always suffices (`runFuel_endPos`). -/
def runFuel : Nat → Option Char → Nat → List Frame → List Char → RunOut
  | _, _, pos, stk, [] => ⟨[], pos, stk, [stk]⟩
  | 0, _, pos, stk, _ :: _ => ⟨[], pos, stk, [stk]⟩
  | fuel + 1, pc, pos, stk, c :: cs =>
    let m := stepFull pc (headState stk) c cs
    let stk2 := applyTrans pos stk m.trans
    let out := runFuel fuel (lastOr pc m.consumed) (pos + m.consumed.length) stk2 m.rest
    ⟨m.toks.map (fun kt => ⟨kt.1, kt.2⟩) ++ out.toks, out.endPos, out.stk, stk :: out.trace⟩

/-- The initial stack: the single `root` frame, entered at offset 0. -/
def initStack : List Frame := [⟨.root, 0⟩]

/-- One full run of the engine over an input. -/
def lexRun (input : List Char) : RunOut :=
  runFuel input.length none 0 initStack input

/-- The token stream produced for an input. -/
def get_tokens (input : List Char) : List Token :=
  (lexRun input).toks

/-- Concatenation of the text spans of a token stream. -/
def concatText : List Token → List Char
  | [] => []
  | t :: ts => t.text ++ concatText ts

/-- Modelled from the spec: `UnterminatedStateError` data.  If the state
stack has depth greater than one at end of input, the unterminated (top)
state's name and start offset are signalled. -/
def unterminated (input : List Char) : Option (LexState × Nat) :=
  match (lexRun input).stk with
  | f :: _ :: _ => some (f.state, f.start)
  | _ => none

/-- Result of the Token Stream Producer: the token stream and the optional
`UnterminatedStateError`. -/
structure LexResult : Type where
  toks : List Token
  err : Option (LexState × Nat)
deriving DecidableEq, Repr

/-- The Token Stream Producer: tokenization entry point. -/
def tokenize (input : List Char) : LexResult :=
  ⟨get_tokens input, unterminated input⟩

/-!  Embedding of `mkdocs_hooks.py`: the playground URL substitution.  The three `re.sub`
calls of `_replace_playground_urls` use literal patterns (with one negative
lookahead for the two `href` forms), so each is a left-to-right, non
overlapping literal replacement that continues after each match. -/

/-- One `re.sub` pass with a literal pattern, literal replacement, and an
optional negative lookahead literal placed after the pattern.  Fuel-indexed;
fuel equal to the input length suffices because pattern matches are
nonempty. -/
def replaceLitF (pat rep : List Char) (neg : Option (List Char)) :
    Nat → List Char → List Char
  | 0, s => s
  | _ + 1, [] => []
  | fuel + 1, c :: cs =>
    match litMatchRest pat (c :: cs) with
    | some r =>
      match neg with
      | some n =>
        if (litMatchRest n r).isSome then c :: replaceLitF pat rep neg fuel cs
        else rep ++ replaceLitF pat rep neg fuel r
      | none => rep ++ replaceLitF pat rep neg fuel r
    | none => c :: replaceLitF pat rep neg fuel cs

/-- One `re.sub` pass (wrapper providing the fuel). -/
def replaceLit (pat rep : List Char) (neg : Option (List Char)) (s : List Char) :
    List Char :=
  replaceLitF pat rep neg s.length s

/-- Absolute-URL pattern `(https://getpromptscript\.dev)/playground/`
(fully literal after merging the capture group). -/
def fullUrlPat : List Char := ("https://getpromptscript.dev/playground/").data

/-- Replacement `\1/playground-dev/` for the absolute-URL pattern. -/
def fullUrlRep : List Char := ("https://getpromptscript.dev/playground-dev/").data

/-- Quoted relative pattern `(href=")(/playground/)(?!dev)`. -/
def hrefQuotedPat : List Char := ("href=\"/playground/").data

def hrefQuotedRep : List Char := ("href=\"/playground-dev/").data

/-- Unquoted relative pattern `(href=)(/playground/)(?!dev)`. -/
def hrefBarePat : List Char := ("href=/playground/").data

def hrefBareRep : List Char := ("href=/playground-dev/").data

/-- The negative lookahead literal `dev`. -/
def devLit : List Char := ("dev").data

/-- Function `_replace_playground_urls` from `mkdocs_hooks.py`: the three `re.sub`
passes in source order. -/
def _replace_playground_urls (html : List Char) : List Char :=
  replaceLit hrefBarePat hrefBareRep (some devLit)
    (replaceLit hrefQuotedPat hrefQuotedRep (some devLit)
      (replaceLit fullUrlPat fullUrlRep none html))

/-- Hook `on_page_content` from `mkdocs_hooks.py`; the `DOCS_VERSION` environment
variable is passed as a parameter. -/
def on_page_content (docs_version : String) (html : List Char) : List Char :=
  if docs_version = "dev" then _replace_playground_urls html else html

/-- Hook `on_post_page` from `mkdocs_hooks.py`. -/
def on_post_page (docs_version : String) (output : List Char) : List Char :=
  if docs_version = "dev" then _replace_playground_urls output else output

/-- Whether the literal `pat` occurs anywhere in a string. -/
def containsLit (pat : List Char) : List Char → Bool
  | [] => (litMatchRest pat []).isSome
  | c :: cs => (litMatchRest pat (c :: cs)).isSome || containsLit pat cs

/-!  Proof-support definitions. -/

/-- Relation `DropWs s t`: `s` is `t` with zero or more whitespace characters
deleted. -/
inductive DropWs : List Char → List Char → Prop
  | nil : DropWs [] []
  | keep (c : Char) {s t : List Char} : DropWs s t → DropWs (c :: s) (c :: t)
  | dropW (c : Char) {s t : List Char} :
      isSpaceCh c = true → DropWs s t → DropWs s (c :: t)

/-- A well-formed state stack: `root`, entered at offset 0, is the bottom
frame and appears nowhere else. -/
def GoodStack (s : List Frame) : Prop :=
  ∃ pre, s = pre ++ [⟨.root, 0⟩] ∧ ∀ f ∈ pre, f.state ≠ LexState.root

/-- Transition actions a rule fired in state `st` may carry without ever
popping `root` or pushing a second `root` frame. -/
def TransOKFor (st : LexState) : Transition → Prop
  | .stay => True
  | .push s => s ≠ .root
  | .pushSame => st ≠ .root
  | .pop => st ≠ .root

/-- Soundness of one match: the consumed span is a nonempty initial segment
of the input, the emitted text is the consumed span up to whitespace
deletion, and the transition respects the stack discipline of `st`. -/
def MROk (st : LexState) (cs : List Char) (m : MatchRes) : Prop :=
  m.consumed ++ m.rest = cs ∧ m.consumed ≠ [] ∧
    DropWs (toksText m.toks) m.consumed ∧ TransOKFor st m.trans

/-- The basic, state-independent part of `MROk`. -/
def MRBase (cs : List Char) (m : MatchRes) : Prop :=
  m.consumed ++ m.rest = cs ∧ m.consumed ≠ [] ∧ DropWs (toksText m.toks) m.consumed

/-!  Utility lemmas. -/

@[simp] theorem toksText_nil : toksText [] = [] := rfl

@[simp] theorem toksText_cons (k : TokKind) (t : List Char)
    (ts : List (TokKind × List Char)) :
    toksText ((k, t) :: ts) = t ++ toksText ts := rfl

@[simp] theorem mkOne_toks (k txt r t) : (mkOne k txt r t).toks = [(k, txt)] := rfl

@[simp] theorem mkOne_consumed (k txt r t) : (mkOne k txt r t).consumed = txt := rfl

@[simp] theorem mkOne_rest (k txt r t) : (mkOne k txt r t).rest = r := rfl

@[simp] theorem mkOne_trans (k txt r t) : (mkOne k txt r t).trans = t := rfl

theorem dropWs_refl : ∀ t : List Char, DropWs t t
  | [] => DropWs.nil
  | c :: t => DropWs.keep c (dropWs_refl t)

theorem dropWs_append {s1 t1 s2 t2 : List Char}
    (h1 : DropWs s1 t1) (h2 : DropWs s2 t2) : DropWs (s1 ++ s2) (t1 ++ t2) := by
  induction h1 with
  | nil => simpa using h2
  | keep c _ ih => simpa using DropWs.keep c ih
  | dropW c hc _ ih => simpa using DropWs.dropW c hc ih

theorem dropWs_wsLeft {ws b : List Char}
    (h : ∀ c ∈ ws, isSpaceCh c = true) : DropWs b (ws ++ b) := by
  induction ws with
  | nil => simpa using dropWs_refl b
  | cons c ws ih =>
    exact DropWs.dropW c (h c (by simp)) (ih fun d hd => h d (by simp [hd]))

theorem mrBase_exact {cs : List Char} {m : MatchRes}
    (h1 : m.consumed ++ m.rest = cs) (h2 : m.consumed ≠ [])
    (h3 : toksText m.toks = m.consumed) : MRBase cs m :=
  ⟨h1, h2, h3 ▸ dropWs_refl _⟩

theorem litMatchRest_eq : ∀ {pat cs r : List Char},
    litMatchRest pat cs = some r → pat ++ r = cs := by
  intro pat
  induction pat with
  | nil =>
    intro cs r h
    simp only [litMatchRest, Option.some.injEq] at h
    simpa using h.symm
  | cons p ps ih =>
    intro cs r h
    cases cs with
    | nil => simp [litMatchRest] at h
    | cons c cs' =>
      unfold litMatchRest at h
      split at h
      · next hc =>
        have : c = p := by simpa using hc
        subst this
        simpa using ih h
      · exact absurd h (by simp)

theorem kwAlt_eq : ∀ {alts : List (List Char)} {cs a r : List Char},
    kwAlt alts cs = some (a, r) → a ∈ alts ∧ a ++ r = cs := by
  intro alts
  induction alts with
  | nil => intro cs a r h; simp [kwAlt] at h
  | cons x xs ih =>
    intro cs a r h
    unfold kwAlt at h
    split at h
    · next rest hrest =>
      obtain ⟨rfl, rfl⟩ : x = a ∧ rest = r := by simpa using h
      exact ⟨by simp, litMatchRest_eq hrest⟩
    · obtain ⟨hmem, happ⟩ := ih h
      exact ⟨by simp [hmem], happ⟩

theorem span1_eq {p : Char → Bool} {cs run r : List Char}
    (h : span1 p cs = some (run, r)) :
    run ++ r = cs ∧ run ≠ [] ∧ ∀ c ∈ run, p c = true := by
  unfold span1 at h
  split at h
  · exact absurd h (by simp)
  · next a l htw =>
    obtain ⟨rfl, rfl⟩ : a :: l = run ∧ cs.dropWhile p = r := by simpa using h
    refine ⟨?_, by simp, ?_⟩
    · rw [← htw]; exact List.takeWhile_append_dropWhile p cs
    · intro c hc
      rw [← htw] at hc
      exact List.mem_takeWhile_imp hc

theorem span0_append (p : Char → Bool) (cs : List Char) :
    (span0 p cs).1 ++ (span0 p cs).2 = cs :=
  List.takeWhile_append_dropWhile p cs

theorem span0_mem {p : Char → Bool} {cs : List Char} :
    ∀ c ∈ (span0 p cs).1, p c = true :=
  fun _ hc => List.mem_takeWhile_imp hc

/-!  Soundness of the individual rule matchers. -/

theorem commentMatch_base {cs : List Char} {m : MatchRes}
    (h : commentMatch cs = some m) : MRBase cs m ∧ m.trans = .stay := by
  unfold commentMatch at h
  split at h
  · next rest =>
    obtain rfl : mkOne .CommentSingle ('#' :: rest.takeWhile notNl)
        (rest.dropWhile notNl) .stay = m := by simpa using h
    exact ⟨mrBase_exact (by simp [List.takeWhile_append_dropWhile]) (by simp)
      (by simp), rfl⟩
  · exact absurd h (by simp)

theorem classMatch_base {p : Char → Bool} {k : TokKind} {t : Transition}
    {cs : List Char} {m : MatchRes} (h : classMatch p k t cs = some m) :
    MRBase cs m ∧ m.trans = t ∧ ∀ c ∈ m.consumed, p c = true := by
  unfold classMatch at h
  split at h
  · next run r hsp =>
    obtain rfl : mkOne k run r t = m := by simpa using h
    obtain ⟨happ, hne, hmem⟩ := span1_eq hsp
    exact ⟨mrBase_exact (by simpa using happ) (by simpa using hne) (by simp),
      rfl, by simpa using hmem⟩
  · exact absurd h (by simp)

theorem litRule_base {pat : List Char} {k : TokKind} {t : Transition}
    {cs : List Char} {m : MatchRes} (hpat : pat ≠ [])
    (h : litRule pat k t cs = some m) :
    MRBase cs m ∧ m.trans = t ∧ m.consumed = pat := by
  unfold litRule at h
  split at h
  · next r hr =>
    obtain rfl : mkOne k pat r t = m := by simpa using h
    exact ⟨mrBase_exact (by simpa using litMatchRest_eq hr) (by simpa using hpat)
      (by simp), rfl, rfl⟩
  · exact absurd h (by simp)

theorem charRule_base {c : Char} {k : TokKind} {t : Transition}
    {cs : List Char} {m : MatchRes} (h : charRule c k t cs = some m) :
    MRBase cs m ∧ m.trans = t ∧ m.consumed = [c] :=
  litRule_base (by simp) h

theorem atKeywordMatch_base {cs : List Char} {m : MatchRes}
    (h : atKeywordMatch cs = some m) : MRBase cs m ∧ m.trans = .stay := by
  unfold atKeywordMatch at h
  split at h
  · next rest =>
    split at h
    · next kw r hkw =>
      split at h
      · obtain rfl : (⟨[(.PunctTok, ['@']), (.KeywordDecl, kw)],
            '@' :: kw, r, .stay⟩ : MatchRes) = m := by simpa using h
        obtain ⟨_, happ⟩ := kwAlt_eq hkw
        exact ⟨mrBase_exact (by simp [happ]) (by simp) (by simp), rfl⟩
      · exact absurd h (by simp)
    · exact absurd h (by simp)
  · exact absurd h (by simp)

theorem pathTail_eq {cs p r : List Char} (h : pathTail cs = some (p, r)) :
    p ++ r = cs ∧ p ≠ [] := by
  unfold pathTail at h
  split at h
  · next rest =>
    split at h
    · next run r1 hsp =>
      obtain ⟨happ1, _, _⟩ := span1_eq hsp
      split at h
      · next r2 =>
        split at h
        · next run2 r3 hsp2 =>
          obtain ⟨happ2, _, _⟩ := span1_eq hsp2
          obtain ⟨rfl, rfl⟩ : ('@' :: run) ++ ('@' :: run2) = p ∧ r3 = r := by
            simpa using h
          exact ⟨by simp [← happ1, ← happ2], by simp⟩
        · obtain ⟨rfl, rfl⟩ : '@' :: run = p ∧ '@' :: r2 = r := by simpa using h
          exact ⟨by simp [← happ1], by simp⟩
      · obtain ⟨rfl, rfl⟩ : '@' :: run = p ∧ r1 = r := by simpa using h
        exact ⟨by simp [← happ1], by simp⟩
    · exact absurd h (by simp)
  · exact absurd h (by simp)

theorem dotPath_eq {cs p r : List Char} (h : dotPath cs = some (p, r)) :
    p ++ r = cs ∧ p ≠ [] := by
  unfold dotPath at h
  split at h
  · next rest =>
    split at h
    · next run r1 hsp =>
      obtain ⟨happ1, _, _⟩ := span1_eq hsp
      obtain ⟨rfl, rfl⟩ : '.' :: run = p ∧ r1 = r := by simpa using h
      exact ⟨by simp [← happ1], by simp⟩
    · exact absurd h (by simp)
  · exact absurd h (by simp)

theorem usePathMatch_eq {cs p r : List Char} (h : usePathMatch cs = some (p, r)) :
    p ++ r = cs ∧ p ≠ [] := by
  unfold usePathMatch at h
  split at h
  · next x hx =>
    obtain rfl : x = (p, r) := by simpa using h
    exact pathTail_eq hx
  · exact dotPath_eq h

theorem atInheritLit_ne : atInheritLit ≠ [] := by decide

theorem atUseLit_ne : atUseLit ≠ [] := by decide

theorem inheritMatch_base {cs : List Char} {m : MatchRes}
    (h : inheritMatch cs = some m) : MRBase cs m ∧ m.trans = .stay := by
  unfold inheritMatch at h
  split at h
  · next r1 hlit =>
    split at h
    · next ws r2 hws =>
      split at h
      · next p r3 hp =>
        obtain rfl : (⟨[(.KeywordNS, atInheritLit), (.WhitespaceTok, ws),
            (.StringTok, p)], atInheritLit ++ ws ++ p, r3, .stay⟩ : MatchRes) = m := by
          simpa using h
        obtain ⟨hws1, _, _⟩ := span1_eq hws
        obtain ⟨hp1, _⟩ := pathTail_eq hp
        have hcs := litMatchRest_eq hlit
        refine ⟨mrBase_exact ?_ ?_ (by simp), rfl⟩
        · rw [← hcs, ← hws1, ← hp1]; simp
        · intro hc
          rw [List.append_assoc] at hc
          exact atInheritLit_ne (List.append_eq_nil.mp hc).1
      · exact absurd h (by simp)
    · exact absurd h (by simp)
  · exact absurd h (by simp)

theorem useMatch_base {cs : List Char} {m : MatchRes}
    (h : useMatch cs = some m) : MRBase cs m ∧ m.trans = .stay := by
  unfold useMatch at h
  split at h
  · next r1 hlit =>
    split at h
    · next ws r2 hws =>
      split at h
      · next p r3 hp =>
        obtain rfl : (⟨[(.KeywordNS, atUseLit), (.WhitespaceTok, ws),
            (.StringTok, p)], atUseLit ++ ws ++ p, r3, .stay⟩ : MatchRes) = m := by
          simpa using h
        obtain ⟨hws1, _, _⟩ := span1_eq hws
        obtain ⟨hp1, _⟩ := usePathMatch_eq hp
        have hcs := litMatchRest_eq hlit
        refine ⟨mrBase_exact ?_ ?_ (by simp), rfl⟩
        · rw [← hcs, ← hws1, ← hp1]; simp
        · intro hc
          rw [List.append_assoc] at hc
          exact atUseLit_ne (List.append_eq_nil.mp hc).1
      · exact absurd h (by simp)
    · exact absurd h (by simp)
  · exact absurd h (by simp)

theorem dashMatch_base {cs : List Char} {m : MatchRes}
    (h : dashMatch cs = some m) : MRBase cs m ∧ m.trans = .stay := by
  unfold dashMatch at h
  split at h
  · next rest =>
    split at h
    · next ws r hws =>
      obtain rfl : mkOne .PunctTok ('-' :: ws) r .stay = m := by simpa using h
      obtain ⟨hws1, _, _⟩ := span1_eq hws
      exact ⟨mrBase_exact (by simp [hws1]) (by simp) (by simp), rfl⟩
    · exact absurd h (by simp)
  · exact absurd h (by simp)

theorem attrKeyMatch_base {cs : List Char} {m : MatchRes}
    (h : attrKeyMatch cs = some m) : MRBase cs m ∧ m.trans = .stay := by
  unfold attrKeyMatch at h
  split at h
  · next kw r1 hkw =>
    split at h
    · next r3 hsp =>
      obtain rfl : (⟨[(.NameAttribute, kw), (.PunctTok, [':'])],
          kw ++ (span0 isSpaceCh r1).1 ++ [':'], r3, .stay⟩ : MatchRes) = m := by
        simpa using h
      obtain ⟨hne, happ⟩ := (by simpa using kwAlt_eq hkw :
        kw ∈ blockAttrs ∧ kw ++ r1 = cs)
      refine ⟨⟨?_, ?_, ?_⟩, rfl⟩
      · show (kw ++ (span0 isSpaceCh r1).1 ++ [':']) ++ r3 = cs
        have h0 := span0_append isSpaceCh r1
        rw [hsp] at h0
        calc (kw ++ (span0 isSpaceCh r1).1 ++ [':']) ++ r3
            = kw ++ ((span0 isSpaceCh r1).1 ++ ':' :: r3) := by simp
          _ = kw ++ r1 := by rw [h0]
          _ = cs := happ
      · simp
      · show DropWs (toksText _) _
        have : toksText [(TokKind.NameAttribute, kw), (TokKind.PunctTok, [':'])] =
            kw ++ [':'] := by simp
        rw [this, List.append_assoc]
        exact dropWs_append (dropWs_refl kw)
          (dropWs_wsLeft fun c hc => span0_mem c hc)
    · exact absurd h (by simp)
  · exact absurd h (by simp)

theorem labelKeyMatch_base {cs : List Char} {m : MatchRes}
    (h : labelKeyMatch cs = some m) : MRBase cs m ∧ m.trans = .stay := by
  unfold labelKeyMatch at h
  split at h
  · next run r1 hsp1 =>
    split at h
    · next r3 hsp =>
      obtain rfl : (⟨[(.NameLabel, run), (.PunctTok, [':'])],
          run ++ (span0 isSpaceCh r1).1 ++ [':'], r3, .stay⟩ : MatchRes) = m := by
        simpa using h
      obtain ⟨happ, hne, _⟩ := span1_eq hsp1
      refine ⟨⟨?_, ?_, ?_⟩, rfl⟩
      · show (run ++ (span0 isSpaceCh r1).1 ++ [':']) ++ r3 = cs
        have h0 := span0_append isSpaceCh r1
        rw [hsp] at h0
        calc (run ++ (span0 isSpaceCh r1).1 ++ [':']) ++ r3
            = run ++ ((span0 isSpaceCh r1).1 ++ ':' :: r3) := by simp
          _ = run ++ r1 := by rw [h0]
          _ = cs := happ
      · simp [hne]
      · show DropWs (toksText _) _
        have : toksText [(TokKind.NameLabel, run), (TokKind.PunctTok, [':'])] =
            run ++ [':'] := by simp
        rw [this, List.append_assoc]
        exact dropWs_append (dropWs_refl run)
          (dropWs_wsLeft fun c hc => span0_mem c hc)
    · exact absurd h (by simp)
  · exact absurd h (by simp)

theorem envVarMatch_base {cs : List Char} {m : MatchRes}
    (h : envVarMatch cs = some m) : MRBase cs m ∧ m.trans = .stay := by
  unfold envVarMatch at h
  split at h
  · next c rest =>
    split at h
    · split at h
      · next r2 hsp =>
        obtain rfl : mkOne .NameVariable
            ('$' :: '\x7b' :: c :: ((span0 upperNameCh rest).1 ++ ['\x7d'])) r2
            .stay = m := by simpa using h
        refine ⟨mrBase_exact ?_ (by simp) (by simp), rfl⟩
        · have h0 := span0_append upperNameCh rest
          rw [hsp] at h0
          calc ('$' :: '\x7b' :: c :: ((span0 upperNameCh rest).1 ++ ['\x7d'])) ++ r2
              = '$' :: '\x7b' :: c ::
                  ((span0 upperNameCh rest).1 ++ '\x7d' :: r2) := by simp
            _ = '$' :: '\x7b' :: c :: rest := by rw [h0]
      · next r2 hsp =>
        split at h
        · next r4 hsp2 =>
          obtain rfl : mkOne .NameVariable
              ('$' :: '\x7b' :: c :: ((span0 upperNameCh rest).1 ++
                ':' :: '-' :: ((span0 notRBrace r2).1 ++ ['\x7d']))) r4 .stay = m := by
            simpa using h
          refine ⟨mrBase_exact ?_ (by simp) (by simp), rfl⟩
          · have h0 := span0_append upperNameCh rest
            rw [hsp] at h0
            have h1 := span0_append notRBrace r2
            rw [hsp2] at h1
            calc ('$' :: '\x7b' :: c :: ((span0 upperNameCh rest).1 ++
                  ':' :: '-' :: ((span0 notRBrace r2).1 ++ ['\x7d']))) ++ r4
                = '$' :: '\x7b' :: c :: ((span0 upperNameCh rest).1 ++
                  ':' :: '-' :: ((span0 notRBrace r2).1 ++ '\x7d' :: r4)) := by simp
              _ = '$' :: '\x7b' :: c :: ((span0 upperNameCh rest).1 ++
                  ':' :: '-' :: r2) := by rw [h1]
              _ = '$' :: '\x7b' :: c :: rest := by rw [h0]
        · exact absurd h (by simp)
      · exact absurd h (by simp)
    · exact absurd h (by simp)
  · exact absurd h (by simp)

theorem semverMatch_base {cs : List Char} {m : MatchRes}
    (h : semverMatch cs = some m) : MRBase cs m ∧ m.trans = .stay := by
  unfold semverMatch at h
  split at h
  · next d1 r1 hsp1 =>
    split at h
    · next r2 =>
      split at h
      · next d2 r3 hsp2 =>
        split at h
        · next r4 =>
          split at h
          · next d3 r5 hsp3 =>
            obtain rfl : mkOne .NumberTok (d1 ++ '.' :: (d2 ++ '.' :: d3)) r5
                .stay = m := by simpa using h
            obtain ⟨h1, hne1, _⟩ := span1_eq hsp1
            obtain ⟨h2, _, _⟩ := span1_eq hsp2
            obtain ⟨h3, _, _⟩ := span1_eq hsp3
            refine ⟨mrBase_exact ?_ ?_ (by simp), rfl⟩
            · rw [← h1, ← h2, ← h3]; simp
            · simp [hne1]
          · exact absurd h (by simp)
        · exact absurd h (by simp)
      · exact absurd h (by simp)
    · exact absurd h (by simp)
  · exact absurd h (by simp)

theorem intMatch_base {cs : List Char} {m : MatchRes}
    (h : intMatch cs = some m) : MRBase cs m ∧ m.trans = .stay := by
  unfold intMatch at h
  split at h
  · next d r hsp =>
    obtain rfl : mkOne .NumberTok d r .stay = m := by simpa using h
    obtain ⟨h1, hne, _⟩ := span1_eq hsp
    exact ⟨mrBase_exact (by simpa using h1) (by simpa using hne) (by simp), rfl⟩
  · exact absurd h (by simp)

theorem boolMatch_base {pc : Option Char} {cs : List Char} {m : MatchRes}
    (h : boolMatch pc cs = some m) : MRBase cs m ∧ m.trans = .stay := by
  unfold boolMatch at h
  split at h
  · split at h
    · next w r hkw =>
      split at h
      · obtain rfl : mkOne .KeywordConstant w r .stay = m := by simpa using h
        obtain ⟨hmem, happ⟩ := kwAlt_eq hkw
        have hne : w ≠ [] := by
          simp only [boolLits, List.mem_cons, List.not_mem_nil, or_false] at hmem
          rcases hmem with rfl | rfl <;> decide
        exact ⟨mrBase_exact (by simpa using happ) hne (by simp), rfl⟩
      · exact absurd h (by simp)
    · exact absurd h (by simp)
  · exact absurd h (by simp)

theorem dollarNoBrace_base {k : TokKind} {cs : List Char} {m : MatchRes}
    (h : dollarNoBrace k cs = some m) : MRBase cs m ∧ m.trans = .stay := by
  unfold dollarNoBrace at h
  split at h
  · exact absurd h (by simp)
  · injection h with h2
    subst h2
    exact ⟨mrBase_exact (by simp) (by simp) (by simp), rfl⟩
  · exact absurd h (by simp)

theorem quoteNotTriple_base {cs : List Char} {m : MatchRes}
    (h : quoteNotTriple cs = some m) : MRBase cs m ∧ m.trans = .stay := by
  unfold quoteNotTriple at h
  split at h
  · exact absurd h (by simp)
  · injection h with h2
    subst h2
    exact ⟨mrBase_exact (by simp) (by simp) (by simp), rfl⟩
  · exact absurd h (by simp)

/-!  Soundness of the engine step. -/

theorem firstMatch_pred {P : MatchRes → Prop} {pc : Option Char} {cs : List Char} :
    ∀ rs : List Rule, (∀ r ∈ rs, ∀ m, r pc cs = some m → P m) →
      ∀ m, firstMatch rs pc cs = some m → P m := by
  intro rs
  induction rs with
  | nil => intro _ m h; simp [firstMatch] at h
  | cons r rs ih =>
    intro hall m h
    unfold firstMatch at h
    split at h
    · next m' hm' =>
      obtain rfl : m' = m := by simpa using h
      exact hall r (by simp) m' hm'
    · exact ih (fun r' hr' => hall r' (by simp [hr'])) m h

theorem mrok_of_base {st : LexState} {cs : List Char} {m : MatchRes}
    (hb : MRBase cs m) {t : Transition} (ht : m.trans = t)
    (hok : TransOKFor st t) : MROk st cs m :=
  ⟨hb.1, hb.2.1, hb.2.2, ht ▸ hok⟩

theorem tripleQ_ne : tripleQ ≠ [] := by decide

theorem rulesOk (st : LexState) :
    ∀ r ∈ tokens st, ∀ (pc : Option Char) (cs : List Char) (m : MatchRes),
      r pc cs = some m → MROk st cs m := by
  cases st <;>
    (intro r hr pc cs m
     simp only [tokens, List.mem_cons, List.not_mem_nil, or_false] at hr) <;>
    rcases hr with rfl | rfl | rfl | rfl | rfl | rfl | rfl | rfl | rfl | rfl |
      rfl | rfl | rfl | rfl | rfl | rfl <;>
    intro hm <;>
    first
      | exact mrok_of_base (commentMatch_base hm).1 (commentMatch_base hm).2
          (by trivial)
      | exact mrok_of_base (classMatch_base hm).1 (classMatch_base hm).2.1
          (by trivial)
      | exact mrok_of_base (atKeywordMatch_base hm).1 (atKeywordMatch_base hm).2
          (by trivial)
      | exact mrok_of_base (inheritMatch_base hm).1 (inheritMatch_base hm).2
          (by trivial)
      | exact mrok_of_base (useMatch_base hm).1 (useMatch_base hm).2
          (by trivial)
      | exact mrok_of_base (dashMatch_base hm).1 (dashMatch_base hm).2
          (by trivial)
      | exact mrok_of_base (attrKeyMatch_base hm).1 (attrKeyMatch_base hm).2
          (by trivial)
      | exact mrok_of_base (labelKeyMatch_base hm).1 (labelKeyMatch_base hm).2
          (by trivial)
      | exact mrok_of_base (envVarMatch_base hm).1 (envVarMatch_base hm).2
          (by trivial)
      | exact mrok_of_base (semverMatch_base hm).1 (semverMatch_base hm).2
          (by trivial)
      | exact mrok_of_base (intMatch_base hm).1 (intMatch_base hm).2
          (by trivial)
      | exact mrok_of_base (boolMatch_base hm).1 (boolMatch_base hm).2
          (by trivial)
      | exact mrok_of_base (dollarNoBrace_base hm).1 (dollarNoBrace_base hm).2
          (by trivial)
      | exact mrok_of_base (quoteNotTriple_base hm).1 (quoteNotTriple_base hm).2
          (by trivial)
      | exact mrok_of_base (charRule_base hm).1 (charRule_base hm).2.1
          (by simp [TransOKFor])
      | exact mrok_of_base (litRule_base tripleQ_ne hm).1
          (litRule_base tripleQ_ne hm).2.1 (by simp [TransOKFor])

theorem stepFull_ok (pc : Option Char) (st : LexState) (c : Char) (cs : List Char) :
    MROk st (c :: cs) (stepFull pc st c cs) := by
  unfold stepFull
  cases hfm : firstMatch (tokens st) pc (c :: cs) with
  | some m =>
    exact firstMatch_pred (tokens st)
      (fun r hr m' hm' => rulesOk st r hr pc (c :: cs) m' hm') m hfm
  | none =>
    refine ⟨rfl, by simp, ?_, trivial⟩
    simp only [toksText_cons, toksText_nil, List.append_nil]
    exact dropWs_refl [c]

theorem stepFull_split (pc : Option Char) (st : LexState) (c : Char) (cs : List Char) :
    (stepFull pc st c cs).consumed ++ (stepFull pc st c cs).rest = c :: cs :=
  (stepFull_ok pc st c cs).1

theorem stepFull_consumed_pos (pc : Option Char) (st : LexState) (c : Char)
    (cs : List Char) : 1 ≤ (stepFull pc st c cs).consumed.length :=
  List.length_pos.mpr (stepFull_ok pc st c cs).2.1

theorem stepFull_len (pc : Option Char) (st : LexState) (c : Char) (cs : List Char) :
    (stepFull pc st c cs).consumed.length + (stepFull pc st c cs).rest.length =
      cs.length + 1 := by
  have h := congrArg List.length (stepFull_split pc st c cs)
  simpa using h

/-!  Engine run lemmas. -/

theorem runFuel_endPos : ∀ (fuel : Nat) (pc : Option Char) (pos : Nat)
    (stk : List Frame) (cs : List Char), cs.length ≤ fuel →
    (runFuel fuel pc pos stk cs).endPos = pos + cs.length := by
  intro fuel
  induction fuel with
  | zero =>
    intro pc pos stk cs h
    have hnil : cs = [] := List.eq_nil_of_length_eq_zero (Nat.le_zero.mp h)
    subst hnil
    simp [runFuel]
  | succ f ih =>
    intro pc pos stk cs h
    cases cs with
    | nil => simp [runFuel]
    | cons c cs' =>
      simp only [runFuel]
      have h1 := stepFull_consumed_pos pc (headState stk) c cs'
      have h2 := stepFull_len pc (headState stk) c cs'
      have hle : cs'.length ≤ f := by simpa using h
      have hrest : (stepFull pc (headState stk) c cs').rest.length ≤ f := by omega
      rw [ih _ _ _ _ hrest]
      simp only [List.length_cons]
      omega

theorem concatText_append (a b : List Token) :
    concatText (a ++ b) = concatText a ++ concatText b := by
  induction a with
  | nil => simp [concatText]
  | cons t ts ih => simp [concatText, ih]

theorem concatText_map (ts : List (TokKind × List Char)) :
    concatText (ts.map fun kt => ⟨kt.1, kt.2⟩) = toksText ts := by
  induction ts with
  | nil => simp [concatText]
  | cons kt ts ih => cases kt; simp [concatText, ih]

theorem runFuel_dropWs : ∀ (fuel : Nat) (pc : Option Char) (pos : Nat)
    (stk : List Frame) (cs : List Char), cs.length ≤ fuel →
    DropWs (concatText (runFuel fuel pc pos stk cs).toks) cs := by
  intro fuel
  induction fuel with
  | zero =>
    intro pc pos stk cs h
    have hnil : cs = [] := List.eq_nil_of_length_eq_zero (Nat.le_zero.mp h)
    subst hnil
    simpa [runFuel, concatText] using DropWs.nil
  | succ f ih =>
    intro pc pos stk cs h
    cases cs with
    | nil => simpa [runFuel, concatText] using DropWs.nil
    | cons c cs' =>
      simp only [runFuel, concatText_append, concatText_map]
      have h1 := stepFull_consumed_pos pc (headState stk) c cs'
      have h2 := stepFull_len pc (headState stk) c cs'
      have hle : cs'.length ≤ f := by simpa using h
      have hrest : (stepFull pc (headState stk) c cs').rest.length ≤ f := by omega
      have hd := (stepFull_ok pc (headState stk) c cs').2.2.1
      have hrec := ih (lastOr pc (stepFull pc (headState stk) c cs').consumed)
        (pos + (stepFull pc (headState stk) c cs').consumed.length)
        (applyTrans pos stk (stepFull pc (headState stk) c cs').trans)
        (stepFull pc (headState stk) c cs').rest hrest
      have := dropWs_append hd hrec
      rwa [stepFull_split pc (headState stk) c cs'] at this

theorem applyTrans_good {stk : List Frame} (h : GoodStack stk) {t : Transition}
    (ht : TransOKFor (headState stk) t) (pos : Nat) :
    GoodStack (applyTrans pos stk t) := by
  obtain ⟨pre, rfl, hpre⟩ := h
  cases t with
  | stay => exact ⟨pre, rfl, hpre⟩
  | push s =>
    refine ⟨⟨s, pos⟩ :: pre, rfl, ?_⟩
    intro f hf
    rcases List.mem_cons.mp hf with rfl | hf
    · exact ht
    · exact hpre f hf
  | pushSame =>
    cases pre with
    | nil => exact absurd rfl ht
    | cons p ps =>
      refine ⟨⟨p.state, pos⟩ :: p :: ps, rfl, ?_⟩
      intro f hf
      rcases List.mem_cons.mp hf with rfl | hf
      · exact hpre p (by simp)
      · exact hpre f hf
  | pop =>
    cases pre with
    | nil => exact absurd rfl ht
    | cons p ps =>
      exact ⟨ps, by simp [applyTrans], fun f hf => hpre f (by simp [hf])⟩

theorem runFuel_trace_good : ∀ (fuel : Nat) (pc : Option Char) (pos : Nat)
    (stk : List Frame) (cs : List Char), GoodStack stk →
    ∀ s ∈ (runFuel fuel pc pos stk cs).trace, GoodStack s := by
  intro fuel
  induction fuel with
  | zero =>
    intro pc pos stk cs hg s hs
    cases cs <;> simp [runFuel] at hs <;> (subst hs; exact hg)
  | succ f ih =>
    intro pc pos stk cs hg s hs
    cases cs with
    | nil =>
      simp [runFuel] at hs
      subst hs
      exact hg
    | cons c cs' =>
      simp only [runFuel, List.mem_cons] at hs
      rcases hs with rfl | hs
      · exact hg
      · exact ih _ _ _ _
          (applyTrans_good hg (stepFull_ok pc (headState stk) c cs').2.2.2 pos) s hs

theorem runFuel_stk_mem : ∀ (fuel : Nat) (pc : Option Char) (pos : Nat)
    (stk : List Frame) (cs : List Char),
    (runFuel fuel pc pos stk cs).stk ∈ (runFuel fuel pc pos stk cs).trace := by
  intro fuel
  induction fuel with
  | zero => intro pc pos stk cs; cases cs <;> simp [runFuel]
  | succ f ih =>
    intro pc pos stk cs
    cases cs with
    | nil => simp [runFuel]
    | cons c cs' =>
      simp only [runFuel, List.mem_cons]
      exact Or.inr (ih _ _ _ _)

theorem initStack_good : GoodStack initStack :=
  ⟨[], rfl, fun f hf => absurd hf (List.not_mem_nil f)⟩

theorem lexRun_stk_good (input : List Char) : GoodStack (lexRun input).stk :=
  runFuel_trace_good _ _ _ _ _ initStack_good _ (runFuel_stk_mem _ _ _ _ _)

/-!  Lemmas about the URL substitution. -/

theorem replaceLitF_of_not_contains {pat rep : List Char} {neg : Option (List Char)} :
    ∀ (fuel : Nat) (s : List Char), containsLit pat s = false →
    replaceLitF pat rep neg fuel s = s := by
  intro fuel
  induction fuel with
  | zero => intro s _; rfl
  | succ f ih =>
    intro s h
    cases s with
    | nil => cases neg <;> rfl
    | cons c cs =>
      unfold containsLit at h
      simp only [Bool.or_eq_false_iff] at h
      unfold replaceLitF
      cases hm : litMatchRest pat (c :: cs) with
      | some r =>
        rw [hm] at h
        simp at h
      | none =>
        show c :: replaceLitF pat rep neg f cs = c :: cs
        rw [ih cs h.2]

theorem replaceLit_of_not_contains {pat rep : List Char} {neg : Option (List Char)}
    {s : List Char} (h : containsLit pat s = false) :
    replaceLit pat rep neg s = s :=
  replaceLitF_of_not_contains s.length s h

/-!  The claims. -/

/-- Claim C1, counterexample: concatenating the emitted token texts does not
reproduce the input `{a : 1}` — the block label rule `([\w\-]+)\s*(:)`
consumes the space between `a` and `:` without emitting it, so the
concatenation is `{a: 1}`. -/
theorem c1_counterexample :
    concatText (get_tokens (("\x7ba : 1\x7d").data)) ≠ ("\x7ba : 1\x7d").data := by
  decide

/-- Claim C1, amended: for every input, concatenating the text spans of all
emitted tokens, in emission order, yields the input with zero or more
whitespace characters deleted (exactly the whitespace matched by `\s*`
between a block key name and its colon); for `{a : 1}` the concatenation is
`{a: 1}`. -/
theorem c1_roundTrip_upToKeyGaps :
    (∀ input : List Char, DropWs (concatText (get_tokens input)) input) ∧
    concatText (get_tokens (("\x7ba : 1\x7d").data)) = ("\x7ba: 1\x7d").data := by
  refine ⟨?_, by decide⟩
  intro input
  exact runFuel_dropWs input.length none 0 initStack input le_rfl

/-- Claim C2, counterexample: tokenizing `"abc` does not signal an
unterminated `string_double` at offset 0 — the root state has no
string rule, so the quote is a one-character Error token, the lexer never
leaves `root`, and no `UnterminatedStateError` is signalled at all. -/
theorem c2_counterexample :
    (tokenize (("\"abc").data)).err ≠ some (LexState.string_double, 0) ∧
    (tokenize (("\"abc").data)).err = none ∧
    get_tokens (("\"abc").data) =
      [⟨.ErrorTok, ("\"").data⟩, ⟨.ErrorTok, ("a").data⟩,
       ⟨.ErrorTok, ("b").data⟩, ⟨.ErrorTok, ("c").data⟩] := by
  refine ⟨by decide, by decide, by decide⟩

/-- Claim C2, amended: whenever tokenization ends with stack depth greater
than one, the signalled `UnterminatedStateError` carries the top
(innermost) unterminated state's name and start offset, and no error is
signalled exactly when the final stack is the root frame alone; strings are
only recognized inside blocks and lists, so the unterminated-string example
is `{"abc`, which signals state `string_double` at offset 1. -/
theorem c2_unterminatedState :
    (∀ (input : List Char) (s : LexState) (off : Nat),
        (tokenize input).err = some (s, off) →
        ∃ f rest, (lexRun input).stk = ⟨s, off⟩ :: f :: rest) ∧
    (∀ input : List Char, (tokenize input).err = none →
        (lexRun input).stk = [⟨.root, 0⟩]) ∧
    (tokenize (("\x7b\"abc").data)).err = some (LexState.string_double, 1) := by
  refine ⟨?_, ?_, by decide⟩
  · intro input s off h
    have h' : unterminated input = some (s, off) := h
    unfold unterminated at h'
    split at h'
    · next f g t heq =>
      obtain ⟨h1, h2⟩ : f.state = s ∧ f.start = off := by simpa using h'
      obtain ⟨fs, fo⟩ := f
      cases h1
      cases h2
      exact ⟨g, t, heq⟩
    · exact absurd h' (by simp)
  · intro input h
    obtain ⟨pre, hpre, hmem⟩ := lexRun_stk_good input
    cases hstk : (lexRun input).stk with
    | nil =>
      rw [hstk] at hpre
      exact absurd hpre.symm (by simp)
    | cons f rest =>
      cases rest with
      | nil =>
        rw [hstk] at hpre
        cases pre with
        | nil =>
          obtain rfl : f = ⟨.root, 0⟩ := by simpa using hpre
          rfl
        | cons p ps => simp at hpre
      | cons g t =>
        have hsome : unterminated input = some (f.state, f.start) := by
          unfold unterminated
          rw [hstk]
        have hnone : unterminated input = none := h
        rw [hnone] at hsome
        exact absurd hsome (by simp)

/-- Claim C2, witness. -/
theorem c2_unterminatedState_witness :
    ∃ f rest, (lexRun (("\x7b\"abc").data)).stk =
      (⟨LexState.string_double, 1⟩ : Frame) :: f :: rest :=
  c2_unterminatedState.1 (("\x7b\"abc").data) LexState.string_double 1 (by decide)

/-- Claim C3: when no rule of the active state matches at the cursor, the
engine consumes exactly one character as a single fallback Error token and
continues in the same state (the stay transition leaves the stack — hence
the active state — unchanged), so the character is not dropped. -/
theorem c3_errorFallback (pc : Option Char) (st : LexState) (c : Char)
    (cs : List Char) (h : firstMatch (tokens st) pc (c :: cs) = none) :
    stepFull pc st c cs =
      ⟨[(TokKind.ErrorTok, [c])], [c], cs, Transition.stay⟩ ∧
    ∀ (pos : Nat) (stk : List Frame), applyTrans pos stk Transition.stay = stk := by
  constructor
  · unfold stepFull
    rw [h]
  · intro pos stk
    rfl

/-- Claim C3, witness: in `root`, no rule matches at `%`. -/
theorem c3_errorFallback_witness :
    stepFull none LexState.root '%' [] =
      ⟨[(TokKind.ErrorTok, ['%'])], ['%'], [], Transition.stay⟩ :=
  (c3_errorFallback none LexState.root '%' [] (by decide)).1

/-- Claim C4: every engine step on a nonempty input consumes at least one
character (so no rule matches a zero-length span), and the run of the
engine over any finite input terminates with the cursor at the end of the
input, yielding the (finite) token list `get_tokens input`. -/
theorem c4_progress :
    (∀ (pc : Option Char) (st : LexState) (c : Char) (cs : List Char),
        1 ≤ (stepFull pc st c cs).consumed.length) ∧
    ∀ input : List Char, (lexRun input).endPos = input.length := by
  refine ⟨stepFull_consumed_pos, fun input => ?_⟩
  have h := runFuel_endPos input.length none 0 initStack input le_rfl
  simpa using h

/-- Claim C5: rules are tried in declaration order and the first match wins
(`firstMatch` returns the head rule's match even when later rules also
match); at `1.0.0` in state `block` both the semver rule and the integer
rule match, and the step takes the semver rule's five-character Number
token because it is declared first, while at a bare `1` the semver rule
fails and the integer rule emits a one-character Number token. -/
theorem c5_firstMatchWins :
    (∀ (r : Rule) (rs : List Rule) (pc : Option Char) (cs : List Char)
        (m : MatchRes), r pc cs = some m → firstMatch (r :: rs) pc cs = some m) ∧
    semverMatch (("1.0.0\x7d").data) =
      some (mkOne TokKind.NumberTok (("1.0.0").data) (("\x7d").data)
        Transition.stay) ∧
    intMatch (("1.0.0\x7d").data) =
      some (mkOne TokKind.NumberTok (("1").data) ((".0.0\x7d").data)
        Transition.stay) ∧
    stepFull none LexState.block '1' ((".0.0\x7d").data) =
      mkOne TokKind.NumberTok (("1.0.0").data) (("\x7d").data) Transition.stay ∧
    semverMatch (("1\x7d").data) = none ∧
    get_tokens (("\x7b1.0.0\x7d").data) =
      [⟨.PunctTok, ("\x7b").data⟩, ⟨.NumberTok, ("1.0.0").data⟩,
       ⟨.PunctTok, ("\x7d").data⟩] ∧
    get_tokens (("\x7b1\x7d").data) =
      [⟨.PunctTok, ("\x7b").data⟩, ⟨.NumberTok, ("1").data⟩,
       ⟨.PunctTok, ("\x7d").data⟩] := by
  refine ⟨?_, by decide, by decide, by decide, by decide, by decide, by decide⟩
  intro r rs pc cs m h
  unfold firstMatch
  rw [h]

/-- Claim C5, witness. -/
theorem c5_firstMatchWins_witness :
    firstMatch ((fun _ cs => semverMatch cs) :: []) none (("1.0.0\x7d").data) =
      some (mkOne TokKind.NumberTok (("1.0.0").data) (("\x7d").data)
        Transition.stay) :=
  c5_firstMatchWins.1 (fun _ cs => semverMatch cs) [] none (("1.0.0\x7d").data)
    (mkOne TokKind.NumberTok (("1.0.0").data) (("\x7d").data) Transition.stay)
    (by decide)

/-- Claim C6: every stack occurring during a run is nonempty, has the root
frame (entered at offset 0) as its bottom element, and contains `root`
nowhere else — so `root` is never popped and the active state (the top of
the stack) is always defined. -/
theorem c6_stackInvariant (input : List Char) (s : List Frame)
    (h : s ∈ (lexRun input).trace) : GoodStack s :=
  runFuel_trace_good input.length none 0 initStack input initStack_good s h

/-- Claim C6, witness: the stack after the push of `{`. -/
theorem c6_stackInvariant_witness :
    GoodStack [⟨LexState.block, 0⟩, ⟨LexState.root, 0⟩] :=
  c6_stackInvariant (("\x7b").data)
    [⟨LexState.block, 0⟩, ⟨LexState.root, 0⟩] (by decide)

/-- Claim C7, counterexample: tokenizing `@meta { id: "x" }` does not emit
the claimed eleven-token kind sequence with a single string token `"x"` —
the string is emitted as three consecutive String.Double tokens `"`, `x`,
`"` (thirteen tokens in total). -/
theorem c7_counterexample :
    get_tokens (("@meta \x7b id: \"x\" \x7d").data) ≠
      [⟨.PunctTok, ("@").data⟩, ⟨.KeywordDecl, ("meta").data⟩,
       ⟨.WhitespaceTok, (" ").data⟩, ⟨.PunctTok, ("\x7b").data⟩,
       ⟨.WhitespaceTok, (" ").data⟩, ⟨.NameAttribute, ("id").data⟩,
       ⟨.PunctTok, (":").data⟩, ⟨.WhitespaceTok, (" ").data⟩,
       ⟨.StringDouble, ("\"x\"").data⟩, ⟨.WhitespaceTok, (" ").data⟩,
       ⟨.PunctTok, ("\x7d").data⟩] := by decide

/-- Claim C7, amended: tokenizing `@meta { id: "x" }` emits exactly
punctuation(`@`), keyword-declaration(`meta`), whitespace, punctuation(`{`),
whitespace, attribute-name(`id`), punctuation(`:`), whitespace, then three
string tokens `"`, `x`, `"`, whitespace, punctuation(`}`). -/
theorem c7_amended :
    get_tokens (("@meta \x7b id: \"x\" \x7d").data) =
      [⟨.PunctTok, ("@").data⟩, ⟨.KeywordDecl, ("meta").data⟩,
       ⟨.WhitespaceTok, (" ").data⟩, ⟨.PunctTok, ("\x7b").data⟩,
       ⟨.WhitespaceTok, (" ").data⟩, ⟨.NameAttribute, ("id").data⟩,
       ⟨.PunctTok, (":").data⟩, ⟨.WhitespaceTok, (" ").data⟩,
       ⟨.StringDouble, ("\"").data⟩, ⟨.StringDouble, ("x").data⟩,
       ⟨.StringDouble, ("\"").data⟩, ⟨.WhitespaceTok, (" ").data⟩,
       ⟨.PunctTok, ("\x7d").data⟩] := by decide

/-- Claim C8, counterexample: tokenizing `"${HOME}/bin"` emits no
variable-interpolation token at all — the root state has no string rule, so
the opening quote and the dollar sign are Error tokens and `{` enters state
`block`. -/
theorem c8_counterexample :
    get_tokens (("\"$\x7bHOME\x7d/bin\"").data) =
      [⟨.ErrorTok, ("\"").data⟩, ⟨.ErrorTok, ("$").data⟩,
       ⟨.PunctTok, ("\x7b").data⟩, ⟨.TextTok, ("HOME").data⟩,
       ⟨.PunctTok, ("\x7d").data⟩, ⟨.ErrorTok, ("/").data⟩,
       ⟨.ErrorTok, ("b").data⟩, ⟨.ErrorTok, ("i").data⟩,
       ⟨.ErrorTok, ("n").data⟩, ⟨.ErrorTok, ("\"").data⟩] ∧
    ∀ t ∈ get_tokens (("\"$\x7bHOME\x7d/bin\"").data),
      t.kind ≠ TokKind.NameVariable := by
  refine ⟨by decide, by decide⟩

/-- Claim C8, amended: inside a double-quoted string (input
`{"${HOME}/bin"}`), a single variable-interpolation token spans exactly
`${HOME}` — not split into `$`, `{`, `HOME`, `}` — with no literal-string
token before it (the empty span emits no token) and the literal-string
token `/bin` after it. -/
theorem c8_amended :
    get_tokens (("\x7b\"$\x7bHOME\x7d/bin\"\x7d").data) =
      [⟨.PunctTok, ("\x7b").data⟩, ⟨.StringDouble, ("\"").data⟩,
       ⟨.NameVariable, ("$\x7bHOME\x7d").data⟩,
       ⟨.StringDouble, ("/bin").data⟩, ⟨.StringDouble, ("\"").data⟩,
       ⟨.PunctTok, ("\x7d").data⟩] := by decide

/-- Claim C9: when `DOCS_VERSION` is not `dev`, `on_page_content` and
`on_post_page` return their input unchanged; `_replace_playground_urls`
leaves a string without any of the three surface forms unchanged, and
rewrites each of the three forms (absolute URL, quoted relative href,
unquoted relative href) to its `-dev` variant while leaving the remaining
content untouched. -/
theorem c9_playgroundUrls :
    (∀ (v : String) (html : List Char), v ≠ "dev" →
        on_page_content v html = html ∧ on_post_page v html = html) ∧
    (∀ html : List Char, containsLit fullUrlPat html = false →
        containsLit hrefQuotedPat html = false →
        containsLit hrefBarePat html = false →
        _replace_playground_urls html = html) ∧
    _replace_playground_urls
        (("<a href=\"https://getpromptscript.dev/playground/\">a</a><a href=\"/playground/\">b</a><a href=/playground/>c</a>").data) =
      (("<a href=\"https://getpromptscript.dev/playground-dev/\">a</a><a href=\"/playground-dev/\">b</a><a href=/playground-dev/>c</a>").data) ∧
    _replace_playground_urls
        (("<a href=\"/playground-dev/\">n</a> plain /playground/ text").data) =
      (("<a href=\"/playground-dev/\">n</a> plain /playground/ text").data) := by
  refine ⟨?_, ?_, by decide, by decide⟩
  · intro v html hv
    constructor
    · unfold on_page_content
      rw [if_neg hv]
    · unfold on_post_page
      rw [if_neg hv]
  · intro html h1 h2 h3
    unfold _replace_playground_urls
    rw [replaceLit_of_not_contains h1, replaceLit_of_not_contains h2,
      replaceLit_of_not_contains h3]

/-- Claim C9, witness. -/
theorem c9_playgroundUrls_witness :
    on_page_content "prod" (("x").data) = ("x").data :=
  (c9_playgroundUrls.1 "prod" (("x").data) (by decide)).1

/-- Claim C10: a successful `ENV_VAR_PATTERN` match always has the shape
`${` + an uppercase-or-underscore character + a run of `[A-Z0-9_]`
characters + `}`, or the same with a `:-default` part before the `}`
(classified as a single Name.Variable token); and `${home}` inside a
double-quoted string is not interpolation: no rule of `string_double`
matches at its `$`, which becomes an Error token. -/
theorem c10_envInterpolationShape :
    (∀ (cs : List Char) (m : MatchRes), envVarMatch cs = some m →
        ∃ (c : Char) (run dflt : List Char),
          (c.isUpper || c == '_') = true ∧
          (∀ d ∈ run, upperNameCh d = true) ∧
          (m.consumed = '$' :: '\x7b' :: c :: (run ++ ['\x7d']) ∨
            (m.consumed = '$' :: '\x7b' :: c ::
              (run ++ ':' :: '-' :: (dflt ++ ['\x7d'])) ∧
             ∀ d ∈ dflt, notRBrace d = true)) ∧
          m.toks = [(TokKind.NameVariable, m.consumed)]) ∧
    firstMatch (tokens .string_double) none (("$\x7bhome\x7d\"").data) = none ∧
    get_tokens (("\x7b\"$\x7bhome\x7d\"\x7d").data) =
      [⟨.PunctTok, ("\x7b").data⟩, ⟨.StringDouble, ("\"").data⟩,
       ⟨.ErrorTok, ("$").data⟩, ⟨.StringDouble, ("\x7bhome\x7d").data⟩,
       ⟨.StringDouble, ("\"").data⟩, ⟨.PunctTok, ("\x7d").data⟩] ∧
    get_tokens (("\x7b\"$\x7bHOME\x7d\"\x7d").data) =
      [⟨.PunctTok, ("\x7b").data⟩, ⟨.StringDouble, ("\"").data⟩,
       ⟨.NameVariable, ("$\x7bHOME\x7d").data⟩, ⟨.StringDouble, ("\"").data⟩,
       ⟨.PunctTok, ("\x7d").data⟩] := by
  refine ⟨?_, by decide, by decide, by decide⟩
  intro cs m h
  unfold envVarMatch at h
  split at h
  · next c rest =>
    split at h
    · next hc =>
      split at h
      · next r2 hsp =>
        obtain rfl : mkOne .NameVariable
            ('$' :: '\x7b' :: c :: ((span0 upperNameCh rest).1 ++ ['\x7d'])) r2
            .stay = m := by simpa using h
        exact ⟨c, (span0 upperNameCh rest).1, [], hc,
          fun d hd => span0_mem d hd, Or.inl rfl, rfl⟩
      · next r2 hsp =>
        split at h
        · next r4 hsp2 =>
          obtain rfl : mkOne .NameVariable
              ('$' :: '\x7b' :: c :: ((span0 upperNameCh rest).1 ++
                ':' :: '-' :: ((span0 notRBrace r2).1 ++ ['\x7d']))) r4
              .stay = m := by simpa using h
          exact ⟨c, (span0 upperNameCh rest).1, (span0 notRBrace r2).1, hc,
            fun d hd => span0_mem d hd,
            Or.inr ⟨rfl, fun d hd => span0_mem d hd⟩, rfl⟩
        · exact absurd h (by simp)
      · exact absurd h (by simp)
    · exact absurd h (by simp)
  · exact absurd h (by simp)

/-- Claim C10, witness. -/
theorem c10_envInterpolationShape_witness :
    ∃ (c : Char) (run dflt : List Char),
      (c.isUpper || c == '_') = true ∧
      (∀ d ∈ run, upperNameCh d = true) ∧
      ((mkOne TokKind.NameVariable (("$\x7bHOME\x7d").data) []
          Transition.stay).consumed = '$' :: '\x7b' :: c :: (run ++ ['\x7d']) ∨
        ((mkOne TokKind.NameVariable (("$\x7bHOME\x7d").data) []
          Transition.stay).consumed = '$' :: '\x7b' :: c ::
            (run ++ ':' :: '-' :: (dflt ++ ['\x7d'])) ∧
         ∀ d ∈ dflt, notRBrace d = true)) ∧
      (mkOne TokKind.NameVariable (("$\x7bHOME\x7d").data) []
        Transition.stay).toks =
        [(TokKind.NameVariable,
          (mkOne TokKind.NameVariable (("$\x7bHOME\x7d").data) []
            Transition.stay).consumed)] :=
  c10_envInterpolationShape.1 (("$\x7bHOME\x7d").data)
    (mkOne TokKind.NameVariable (("$\x7bHOME\x7d").data) [] Transition.stay)
    (by decide)

end PromptScript
